import Mathlib

/-!
Shallow embedding of the enrichment-analysis core of the `liasis` repository
(`src/pbsea/pbsea.py`): the hypothesis-test engine, the multiple-testing
correction suite (Bonferroni, Holm, Benjamini-Hochberg, Benjamini-Yekutieli,
SGoF), the significance selectors and the orchestration pipeline of
`PandasBasedEnrichmentAnalysis` / `EnrichmentAnalysisExperimental`.

Modelling conventions:
* pandas cells are modelled by `Cell`: a rational number, a string, or `nan`
  (`np.nan`).  Real-valued arithmetic is carried out exactly in `ℚ`.
* a pandas DataFrame is modelled by `DF`: a header of column names plus rows,
  each row being the index key together with cells aligned with the header.
* transcendental library calls that cannot be computed in `ℚ`
  (`scipy.stats.norm.sf`, `np.log`, `scipy.stats.chi2.ppf`, `math.pow`) are
  passed in as explicit function/value parameters; the exact distribution
  tails `scipy.stats.hypergeom.sf` and `scipy.stats.binom.sf` are defined
  exactly by their standard finite sums.
* Python `KeyError` (missing DataFrame column) and `ZeroDivisionError` are
  modelled with `Except String`.
-/

inductive Cell where
  | num (q : ℚ)
  | str (s : String)
  | nan
deriving DecidableEq, Repr

/-- Numeric value of a cell (only used on columns known to hold numbers). -/
def cellVal : Cell → ℚ
  | .num q => q
  | _ => 0

/-- Multiplication of a pandas cell by a scalar: `nan` propagates. -/
def cellMulQ : Cell → ℚ → Cell
  | .num p, x => .num (p * x)
  | _, _ => .nan

/-- Comparison `cell > x` as pandas evaluates it: `nan > x` and `str > x` are false. -/
def cellGtQ (c : Cell) (x : ℚ) : Bool :=
  match c with
  | .num p => decide (x < p)
  | _ => false

/-- Comparison `cell < x` as pandas evaluates it: false on `nan` and strings. -/
def cellLtQ (c : Cell) (x : ℚ) : Bool :=
  match c with
  | .num p => decide (p < x)
  | _ => false

/-- Comparison `a > b` between two cells; any `nan`/string makes it false. -/
def cellGt (a b : Cell) : Bool :=
  match a, b with
  | .num x, .num y => decide (y < x)
  | _, _ => false

/-- `np.minimum` of two cells: `nan` propagates. -/
def cellMin (a b : Cell) : Cell :=
  match a, b with
  | .num x, .num y => .num (min x y)
  | _, _ => .nan

/-- `np.minimum(1, v)` applied cell-wise. -/
def cellMin1 (c : Cell) : Cell := cellMin (.num 1) c

/-- A pandas DataFrame: header of column names, and rows of (index key, cells). -/
structure DF where
  header : List String
  rows : List (String × List Cell)
deriving DecidableEq, Repr

/-- Cell of a row at column position `j` (columns are aligned with the header). -/
def cellAt (cells : List Cell) (j : ℕ) : Cell := cells.getD j .nan

/-- Position of a column; a missing column is a Python `KeyError`. -/
def DF.colIdx (f : DF) (name : String) : Except String ℕ :=
  match f.header.findIdx? (fun h => h == name) with
  | some j => .ok j
  | none => .error ("KeyError: " ++ name)

/-- Extract a column (`df[name]`). -/
def DF.getCol (f : DF) (name : String) : Except String (List Cell) := do
  let j ← f.colIdx name
  .ok (f.rows.map (fun r => cellAt r.2 j))

/-- Set one cell of a row at position `j`, extending with `nan` if needed. -/
def setCellAt (cells : List Cell) (j : ℕ) (v : Cell) : List Cell :=
  (cells ++ List.replicate (j + 1 - cells.length) Cell.nan).set j v

/-- Column assignment `df[name] = vals`: overwrite in place or append. -/
def DF.setCol (f : DF) (name : String) (vals : List Cell) : DF :=
  match f.header.findIdx? (fun h => h == name) with
  | some j => ⟨f.header, f.rows.zipWith (fun r v => (r.1, setCellAt r.2 j v)) vals⟩
  | none => ⟨f.header ++ [name], f.rows.zipWith (fun r v => (r.1, r.2 ++ [v])) vals⟩

/-- Ordering used by `df.sort_values` on a numeric column: `nan` sorts last. -/
def cellLeSort (a b : Cell) : Bool :=
  match a, b with
  | .num x, .num y => decide (x ≤ y)
  | .num _, _ => true
  | _, .num _ => false
  | _, _ => true

/-- Stable insertion of a row into a sorted row list. -/
def insertSortedRow (le : (String × List Cell) → (String × List Cell) → Bool)
    (x : String × List Cell) : List (String × List Cell) → List (String × List Cell)
  | [] => [x]
  | y :: ys => if le x y then x :: y :: ys else y :: insertSortedRow le x ys

/-- Stable insertion sort of rows. -/
def insertionSortRows (le : (String × List Cell) → (String × List Cell) → Bool) :
    List (String × List Cell) → List (String × List Cell)
  | [] => []
  | x :: xs => insertSortedRow le x (insertionSortRows le xs)

/-- `df.sort_values(name)`: sort rows by a column, `nan` last; `KeyError` if absent. -/
def DF.sortByCol (f : DF) (name : String) : Except String DF := do
  let j ← f.colIdx name
  .ok ⟨f.header, insertionSortRows (fun r s => cellLeSort (cellAt r.2 j) (cellAt s.2 j)) f.rows⟩

/-- `df.replace('', np.nan)` over the whole frame. -/
def DF.replaceEmptyWithNan (f : DF) : DF :=
  ⟨f.header, f.rows.map (fun r => (r.1, r.2.map (fun c => if c = Cell.str "" then Cell.nan else c)))⟩

/-- `df.replace(np.nan, '')` over the whole frame. -/
def DF.replaceNanWithEmpty (f : DF) : DF :=
  ⟨f.header, f.rows.map (fun r => (r.1, r.2.map (fun c => if c = Cell.nan then Cell.str "" else c)))⟩

/-- `row.dropna` test: does the row contain a `nan` cell? -/
def rowHasNan (cells : List Cell) : Bool := cells.any (fun c => c = Cell.nan)

/-- Probability mass of the hypergeometric distribution with population `N`,
`K` successes, `n` draws, at `j` hits (`scipy.stats.hypergeom.pmf`). -/
def hypergeomPmf (N K n j : ℕ) : ℚ :=
  ((K.choose j * (N - K).choose (n - j) : ℕ) : ℚ) / ((N.choose n : ℕ) : ℚ)

/-- Hypergeometric cumulative distribution `P(X ≤ x)` at an integer point. -/
def hypergeomCdf (N K n : ℕ) (x : ℤ) : ℚ :=
  ∑ j ∈ Finset.range (n + 1), if (j : ℤ) ≤ x then hypergeomPmf N K n j else 0

/-- `scipy.stats.hypergeom.sf(x, N, K, n) = P(X > x)`, defined as `1 - cdf x`. -/
def hypergeomSf (N K n : ℕ) (x : ℤ) : ℚ := 1 - hypergeomCdf N K n x

/-- Upper tail `P(X ≥ k)` of the hypergeometric distribution: the probability of
drawing at least `k` successes in `n` draws without replacement from a
population of `N` containing `K` successes. -/
def hypergeomTail (N K n k : ℕ) : ℚ :=
  ∑ j ∈ Finset.range (n + 1), if k ≤ j then hypergeomPmf N K n j else 0

/-- `scipy.stats.binom.sf(k, m, α) = P(X > k)` for `X ~ Binomial(m, α)`, exactly. -/
def binomSf (m : ℕ) (α : ℚ) (k : ℕ) : ℚ :=
  ∑ j ∈ Finset.Icc (k + 1) m, ((m.choose j : ℕ) : ℚ) * α ^ j * (1 - α) ^ (m - j)

/-- State of a `PandasBasedEnrichmentAnalysis` object: the parameters stored by
`__init__` (which performs no validation whatsoever). -/
structure EAState where
  nInterest : ℕ
  nReference : ℕ
  alpha : ℚ
  normalApproxThreshold : ℚ
  statisticMethod : String
deriving DecidableEq, Repr

/-- `PandasBasedEnrichmentAnalysis.__init__`: stores the parameters as given;
there is no check of `n_interest ≤ n_reference`, of `alpha`, or of the table. -/
def enrichmentAnalysisInit (nI nR : ℕ) (alpha thr : ℚ) : EAState :=
  ⟨nI, nR, alpha, thr, ""⟩

/-- Property setter `number_of_analyzed_object_of_interest`: raises `ValueError`
when the new value exceeds the stored reference size. -/
def setNumberOfAnalyzedObjectOfInterest (s : EAState) (v : ℕ) : Except String EAState :=
  if s.nReference < v then
    .error "The number of objects in your sample of interest is greater than the number of objects in the reference."
  else
    .ok { s with nInterest := v }

/-- Property setter `number_of_analyzed_object_of_reference`: raises `ValueError`
when the new value is below the stored interest size. -/
def setNumberOfAnalyzedObjectOfReference (s : EAState) (v : ℕ) : Except String EAState :=
  if v < s.nInterest then
    .error "The number of objects in the reference is smaller than the number of objects in your sample of interest."
  else
    .ok { s with nReference := v }

/-- Property setter `alpha`: stores the value with no validation. -/
def setAlpha (s : EAState) (v : ℚ) : EAState := { s with alpha := v }

/-- `compute_hypergeometric_test`: the raw p-value of a row with
`k = count_interest`, `K = count_reference` is
`scipy.stats.hypergeom.sf(k - 1, n_reference, K, n_interest)`. -/
def computeHypergeometricTest (nI nR k K : ℕ) : ℚ :=
  hypergeomSf nR K nI ((k : ℤ) - 1)

/-- `compute_normal_approximation`: with `p = K/N`, `q = 1-p`, `t = n/N`,
`mu = n*p`, the row p-value is `np.nan` when `0 in [n, p, q, 1-t]`, and
otherwise `scipy.stats.norm.sf(k, loc=mu, scale=sqrt(n*p*q*(1-t)))`.  The
normal survival function (with the square root folded in) is abstracted as a
parameter `normSf k mu var` where `var = n*p*q*(1-t)` is the squared scale. -/
def computeNormalApproximation (normSf : ℚ → ℚ → ℚ → ℚ) (nI nR : ℚ) (k K : ℚ) : Cell :=
  let p := K / nR
  let q := 1 - p
  let t := nI / nR
  let mu := nI * p
  if nI = 0 ∨ p = 0 ∨ q = 0 ∨ 1 - t = 0 then Cell.nan
  else Cell.num (normSf k mu (nI * p * q * (1 - t)))

/-- `test_on_dataframe`, table-wide mode selection only: the normal
approximation is used exactly when every `count_interest` strictly exceeds
the threshold (`all(df[column_interest] > approximation_threshold)`). -/
def valueHigherThreshold (thr : ℚ) (counts : List Cell) : Bool :=
  counts.all (fun c => cellGtQ c thr)

/-- Numeric count stored in a cell; input count columns hold non-negative
integers (the spec's data model), so `q.num.toNat` is their exact value. -/
def cellToNat (c : Cell) : ℕ :=
  match c with
  | .num q => q.num.toNat
  | _ => 0

/-- `test_on_dataframe` on the frame: choose the mode from the global predicate,
compute the raw p-value column under its mode-specific name, and sort by it.
Returns the frame and the updated state (its `statistic_method`). -/
def testOnDataframe (normSf : ℚ → ℚ → ℚ → ℚ) (s : EAState) (colI colR : String)
    (f : DF) : Except String (DF × EAState) := do
  let ci ← f.getCol colI
  let cr ← f.getCol colR
  if valueHigherThreshold s.normalApproxThreshold ci = false then
    let s' := { s with statisticMethod := "pvalue_hypergeometric" }
    let vals := List.zipWith
      (fun a b => Cell.num (computeHypergeometricTest s.nInterest s.nReference (cellToNat a) (cellToNat b)))
      ci cr
    let f1 ← (f.setCol "pvalue_hypergeometric" vals).sortByCol "pvalue_hypergeometric"
    .ok (f1, s')
  else
    let s' := { s with statisticMethod := "pvalue_normal_approximation" }
    let vals := List.zipWith
      (fun a b => computeNormalApproximation normSf (s.nInterest : ℚ) (s.nReference : ℚ) (cellVal a) (cellVal b))
      ci cr
    let f1 ← (f.setCol "pvalue_normal_approximation" vals).sortByCol "pvalue_normal_approximation"
    .ok (f1, s')

/-- The Bonferroni lambda `1 if pvalue * m > 1 else pvalue * m`, cell-wise
(`nan` propagates, because `nan * m > 1` is false and `nan * m` is `nan`). -/
def bonferroniLambda (m : ℕ) (c : Cell) : Cell :=
  if cellGtQ (cellMulQ c (m : ℚ)) 1 then Cell.num 1 else cellMulQ c (m : ℚ)

/-- `correction_bonferroni`: apply the lambda to the raw p-value column and
store the result as `pValueBonferroni`. -/
def correctionBonferroni (method : String) (f : DF) : Except String DF := do
  let col ← f.getCol method
  let m := f.rows.length
  .ok (f.setCol "pValueBonferroni" (col.map (bonferroniLambda m)))

/-- `np.minimum.accumulate` on cells, inner loop: `nan` propagates forward. -/
def cumminCellsGo (acc : Cell) : List Cell → List Cell
  | [] => []
  | y :: ys => cellMin acc y :: cumminCellsGo (cellMin acc y) ys

/-- `np.minimum.accumulate` on a cell list. -/
def cumminCells : List Cell → List Cell
  | [] => []
  | x :: xs => x :: cumminCellsGo x xs

/-- Running minimum on rationals, inner loop (specification twin of
`cumminCellsGo` on numeric cells). -/
def cumminQAux (acc : ℚ) : List ℚ → List ℚ
  | [] => []
  | y :: ys => min acc y :: cumminQAux (min acc y) ys

/-- Running minimum on rationals (specification twin of `cumminCells`). -/
def cumminQ : List ℚ → List ℚ
  | [] => []
  | x :: xs => x :: cumminQAux x xs

/-- Benjamini-Hochberg step-up candidates `p_i * (m / rank_i)` over a column. -/
def bhCandidates (m : ℕ) (col : List Cell) : List Cell :=
  List.zipWith (fun (i : ℕ) c => cellMulQ c ((m : ℚ) / ((i : ℚ) + 1))) (List.range col.length) col

/-- The Benjamini-Hochberg corrected column of a raw p-value column: step-up
candidates, tail cumulative minimum (reverse, `np.minimum.accumulate`,
reverse back), capped at 1. -/
def bhColumnCells (col : List Cell) : List Cell :=
  (cumminCells (bhCandidates col.length col).reverse).reverse.map cellMin1

/-- `correction_benjamini_hochberg`: sort by the raw p-value column, build the
step-up candidates, enforce the tail cumulative minimum (reverse, running
`np.minimum.accumulate`, reverse back), cap at 1, store as
`pValueBenjaminiHochberg`. -/
def correctionBenjaminiHochberg (method : String) (f : DF) : Except String DF := do
  let f1 ← f.sortByCol method
  let col ← f1.getCol method
  .ok (f1.setCol "pValueBenjaminiHochberg" (bhColumnCells col))

/-- Harmonic sum `c(m) = Σ_{j=1}^{m} 1/j`. -/
def harmonicSum (m : ℕ) : ℚ := ((List.range m).map (fun (j : ℕ) => (1 : ℚ) / ((j : ℚ) + 1))).sum

/-- Modelled from the spec: `statsmodels.multipletests(..., method="fdr_by")`
is an external library call (not in `src/`); per the spec it is the same
step-up structure as Benjamini-Hochberg scaled by the harmonic factor
`c(m)`: `q_i = p_i * c(m) * (m / rank_i)`, tail cumulative minimum, cap at 1. -/
def fdrByCells (col : List Cell) : List Cell :=
  let m := col.length
  let cands := List.zipWith
    (fun (i : ℕ) c => cellMulQ c (harmonicSum m * ((m : ℚ) / ((i : ℚ) + 1))))
    (List.range col.length) col
  (cumminCells cands.reverse).reverse.map cellMin1

/-- `correction_benjamini_yekutieli`: sorts by the hardcoded column name
`pvalue_hypergeometric` (a `KeyError` when that column does not exist, i.e. in
normal-approximation mode) and stores the corrected values as
`pValueBenjaminiYekutieli`. -/
def correctionBenjaminiYekutieli (f : DF) : Except String DF := do
  let f1 ← f.sortByCol "pvalue_hypergeometric"
  let col ← f1.getCol "pvalue_hypergeometric"
  .ok (f1.setCol "pValueBenjaminiYekutieli" (fdrByCells col))

/-- Loop body of `correction_holm`, carried over the sorted p-value column.
`pmax` is the running `pvalue_max` (initially the Python int `0`), `rank` the
0-based position.  Each candidate is `p * (number_of_test - rank)`, capped at
1; the two comparison branches keep the running maximum; the final branch of
the source (`if c > alpha and pvalue_max < c`) is replicated verbatim. -/
def holmGo (alpha : ℚ) (m : ℕ) (pmax : Cell) (rank : ℕ) : List Cell → List Cell
  | [] => []
  | c :: rest =>
    let c0 := cellMulQ c ((m : ℚ) - (rank : ℚ))
    let c1 := if cellGtQ c0 1 then Cell.num 1 else c0
    let pmax1 := if cellGt c1 pmax then c1 else pmax
    let c2 := if cellGt pmax1 c1 then pmax1 else c1
    let pmax2 := if cellGtQ c2 alpha && cellGt c2 pmax1 then c2 else pmax1
    c2 :: holmGo alpha m pmax2 (rank + 1) rest

/-- `correction_holm`: sort ascending by the raw p-value column, then run the
step-down loop and store the result as `pValueHolm`. -/
def correctionHolm (alpha : ℚ) (method : String) (f : DF) : Except String DF := do
  let f1 ← f.sortByCol method
  let col ← f1.getCol method
  .ok (f1.setCol "pValueHolm" (holmGo alpha f1.rows.length (Cell.num 0) 0 col))

/-- `error_rate_adjustement_bonferroni`: `alpha / len(df.index)`; on an empty
table the Python division raises `ZeroDivisionError`. -/
def errorRateAdjustementBonferroni (alpha : ℚ) (m : ℕ) : Except String ℚ :=
  if m = 0 then .error "ZeroDivisionError" else .ok (alpha / (m : ℚ))

/-- `error_rate_adjustement_sidak`: `1 - (1 - alpha) ** (1 / m)`.  The real
power `math.pow` is abstracted as the parameter `powfrac base exponent`. -/
def errorRateAdjustementSidak (powfrac : ℚ → ℚ → ℚ) (alpha : ℚ) (m : ℕ) : Except String ℚ :=
  if m = 0 then .error "ZeroDivisionError" else .ok (1 - powfrac (1 - alpha) (1 / (m : ℚ)))

/-- `selection_object_with_adjusted_error_rate` (Sidak, Bonferroni): keys of
the rows whose raw p-value is strictly below the adjusted error rate, after
dropping every row that has a `nan` anywhere (`.dropna(0)`). -/
def selectionObjectWithAdjustedErrorRate (method : String) (errorRate : ℚ) (f : DF) :
    Except String (List String) := do
  let j ← f.colIdx method
  .ok ((f.rows.filter (fun r => cellLtQ (cellAt r.2 j) errorRate && !rowHasNan r.2)).map
    (fun r => r.1))

/-- `selection_object_with_adjusted_pvalue` (Holm, BH, BY): replace `''` by
`nan` in the whole frame (in place, so the modified frame is returned), then
keep the keys of the rows whose `pValue<method>` is strictly below `alpha` and
that have no `nan` in any column (`.dropna(0)`). -/
def selectionObjectWithAdjustedPvalue (alpha : ℚ) (methodName : String) (f : DF) :
    Except String (DF × List String) := do
  let f1 := f.replaceEmptyWithNan
  let j ← f1.colIdx ("pValue" ++ methodName)
  .ok (f1, (f1.rows.filter (fun r => cellLtQ (cellAt r.2 j) alpha && !rowHasNan r.2)).map
    (fun r => r.1))

/-- `selection_object_with_sgof`: replace `nan` by `''` in the whole frame (in
place), then keep the keys of the rows whose `pValue<method>` cell literally
equals the string `significant` (then `.dropna(0)`, vacuous after the
replacement). -/
def selectionObjectWithSgof (methodName : String) (f : DF) : Except String (DF × List String) := do
  let f1 := f.replaceNanWithEmpty
  let j ← f1.colIdx ("pValue" ++ methodName)
  .ok (f1, (f1.rows.filter (fun r => (cellAt r.2 j == Cell.str "significant") && !rowHasNan r.2)).map
    (fun r => r.1))

/-- Small-sample SGoF (`m ≤ 10`) verdict column: binomial survival values at
ranks `1..R+1`, the last dropped (the `[:-1]` slice of the source), reversed;
a row is `significant` when its aligned value is `≤ alpha`; the remaining
`m - R` rows are `nan`. -/
def sgofSmallVerdicts (alpha : ℚ) (m R : ℕ) : List Cell :=
  let multipleValues := ((List.range (R + 1)).map (fun r => binomSf m alpha (r + 1))).dropLast
  let reordered := multipleValues.reverse
  reordered.map (fun v => if v ≤ alpha then Cell.str "significant" else Cell.nan)
    ++ List.replicate (m - R) Cell.nan

/-- Small-sample SGoF companion column `pValueSGoFValue`: the reversed survival
values themselves, padded with `nan`. -/
def sgofSmallValues (alpha : ℚ) (m R : ℕ) : List Cell :=
  let reordered := (((List.range (R + 1)).map (fun r => binomSf m alpha (r + 1))).dropLast).reverse
  reordered.map Cell.num ++ List.replicate (m - R) Cell.nan

/-- Large-sample SGoF boundary adjustment: `if number_pvalue == R: R = R - 1`. -/
def sgofAdjustedR (m R0 : ℕ) : ℕ := if m = R0 then R0 - 1 else R0

/-- Large-sample SGoF G-statistics for ranks `1..R+1` (after the boundary
adjustment): the below-threshold and above-threshold log-likelihood components,
the Williams factor `1 + 1/(2m)` applied to the latter, summed and doubled.
`np.log` is abstracted as the parameter `logf`. -/
def sgofLargeProb (alpha : ℚ) (logf : ℚ → ℚ) (m R0 : ℕ) : List ℚ :=
  let R := sgofAdjustedR m R0
  let l := (List.range (R + 1)).map (fun i => ((i + 1 : ℕ) : ℚ))
  let below := l.map (fun r => r * logf (r / ((m : ℚ) * alpha)))
  let above := l.map (fun r => ((m : ℚ) - r) * logf (((m : ℚ) - r) / ((m : ℚ) * (1 - alpha))))
  let william := 1 + 1 / (2 * (m : ℚ))
  List.zipWith (fun b a => (b + a / william) * 2) below above

/-- The loop-invariant comparison `prob_each_pvalues[-1] >= prob_each_pvalues[-2]`
of the large-sample branch (it does not depend on the loop iteration). -/
def sgofLargeCondition (prob : List ℚ) : Bool :=
  decide (prob.getD (prob.length - 2) 0 ≤ prob.getD (prob.length - 1) 0)

/-- Large-sample SGoF (`m > 10`) verdict column, as left in the frame after the
assignment loop, the `R == 0` overwrite, and the final `replace('', np.nan)`:
rows aligned with a G-statistic are `significant` when the statistic is
`>= chi2.ppf(1 - alpha, 1)` (abstracted as `g`) and the tail comparison holds;
rows beyond the loop keep the `''` initialisation, turned into `nan`. -/
def sgofLargeVerdicts (alpha : ℚ) (logf : ℚ → ℚ) (g : ℚ) (m R0 : ℕ) : List Cell :=
  let R := sgofAdjustedR m R0
  let prob := sgofLargeProb alpha logf m R0
  let reordered := prob.reverse
  let base :=
    if reordered.length = 1 then
      reordered.map (fun v => if g ≤ v then Cell.str "significant" else Cell.nan)
    else if 1 < prob.length then
      if sgofLargeCondition prob then
        reordered.map (fun v => if g ≤ v then Cell.str "significant" else Cell.nan)
      else reordered.map (fun _ => Cell.nan)
    else []
  let col := base ++ List.replicate (m - reordered.length) (Cell.str "")
  let col2 := if R = 0 then List.replicate m Cell.nan else col
  col2.map (fun c => if c = Cell.str "" then Cell.nan else c)

/-- Large-sample SGoF companion column `pValueSGoFValue`: the G-statistic where
a verdict was assigned and accepted, `nan` elsewhere (rows never touched by the
loop are left missing, i.e. `nan`). -/
def sgofLargeValues (alpha : ℚ) (logf : ℚ → ℚ) (g : ℚ) (m R0 : ℕ) : List Cell :=
  let prob := sgofLargeProb alpha logf m R0
  let reordered := prob.reverse
  let base :=
    if reordered.length = 1 ∨ (1 < prob.length ∧ sgofLargeCondition prob) then
      reordered.map (fun v => if g ≤ v then Cell.num v else Cell.nan)
    else reordered.map (fun _ => Cell.nan)
  base ++ List.replicate (m - reordered.length) Cell.nan

/-- SGoF verdict column for a raw p-value sequence: `R` counts the p-values
strictly below `alpha`; tables of at most 10 rows take the exact binomial
branch, larger tables the chi-square branch. -/
def correctionSgofColumn (alpha : ℚ) (logf : ℚ → ℚ) (g : ℚ) (ps : List ℚ) : List Cell :=
  let m := ps.length
  let R := (ps.filter (fun p => p < alpha)).length
  if m ≤ 10 then sgofSmallVerdicts alpha m R else sgofLargeVerdicts alpha logf g m R

/-- `correction_sgof` on the frame: sorts by the hardcoded column name
`pvalue_hypergeometric` (`KeyError` in normal-approximation mode), counts `R`,
and stores the verdict and value columns.  The `reset_index`/`set_index`
bookkeeping of the source is the identity here because rows carry their keys. -/
def correctionSgof (logf : ℚ → ℚ) (g : ℚ) (alpha : ℚ) (f : DF) : Except String DF := do
  let f1 ← f.sortByCol "pvalue_hypergeometric"
  let col ← f1.getCol "pvalue_hypergeometric"
  let m := col.length
  let R := (col.filter (fun c => cellLtQ c alpha)).length
  if m ≤ 10 then
    .ok ((f1.setCol "pValueSGoF" (sgofSmallVerdicts alpha m R)).setCol "pValueSGoFValue"
      (sgofSmallValues alpha m R))
  else
    .ok ((f1.setCol "pValueSGoF" (sgofLargeVerdicts alpha logf g m R)).setCol "pValueSGoFValue"
      (sgofLargeValues alpha logf g m R))

/-- `PandasBasedEnrichmentAnalysis.multiple_testing_correction`: sort by the
raw p-value column, run Bonferroni, Benjamini-Hochberg, Benjamini-Yekutieli
and Holm, then compute the significant-object list of each of the five base
methods in the source's loop order (the in-place `replace` of the p-value
selector threads the frame through the loop). -/
def multipleTestingCorrectionBase (powfrac : ℚ → ℚ → ℚ) (s : EAState) (f : DF) :
    Except String (DF × List (String × List String)) := do
  let f0 ← f.sortByCol s.statisticMethod
  let f1 ← correctionBonferroni s.statisticMethod f0
  let f2 ← correctionBenjaminiHochberg s.statisticMethod f1
  let f3 ← correctionBenjaminiYekutieli f2
  let f4 ← correctionHolm s.alpha s.statisticMethod f3
  let sidakRate ← errorRateAdjustementSidak powfrac s.alpha f4.rows.length
  let selSidak ← selectionObjectWithAdjustedErrorRate s.statisticMethod sidakRate f4
  let bonfRate ← errorRateAdjustementBonferroni s.alpha f4.rows.length
  let selBonf ← selectionObjectWithAdjustedErrorRate s.statisticMethod bonfRate f4
  let r1 ← selectionObjectWithAdjustedPvalue s.alpha "Holm" f4
  let r2 ← selectionObjectWithAdjustedPvalue s.alpha "BenjaminiHochberg" r1.1
  let r3 ← selectionObjectWithAdjustedPvalue s.alpha "BenjaminiYekutieli" r2.1
  .ok (r3.1, [("Sidak", selSidak), ("Bonferroni", selBonf), ("Holm", r1.2),
    ("BenjaminiHochberg", r2.2), ("BenjaminiYekutieli", r3.2)])

/-- `EnrichmentAnalysisExperimental.multiple_testing_correction`: the base
corrections followed by SGoF, and the selection loop extended with the SGoF
verdict selector (loop order Sidak, Bonferroni, Holm, SGoF, BH, BY). -/
def multipleTestingCorrectionExperimental (powfrac : ℚ → ℚ → ℚ) (logf : ℚ → ℚ) (g : ℚ)
    (s : EAState) (f : DF) : Except String (DF × List (String × List String)) := do
  let f0 ← f.sortByCol s.statisticMethod
  let f1 ← correctionBonferroni s.statisticMethod f0
  let f2 ← correctionBenjaminiHochberg s.statisticMethod f1
  let f3 ← correctionBenjaminiYekutieli f2
  let f4 ← correctionHolm s.alpha s.statisticMethod f3
  let f5 ← correctionSgof logf g s.alpha f4
  let sidakRate ← errorRateAdjustementSidak powfrac s.alpha f5.rows.length
  let selSidak ← selectionObjectWithAdjustedErrorRate s.statisticMethod sidakRate f5
  let bonfRate ← errorRateAdjustementBonferroni s.alpha f5.rows.length
  let selBonf ← selectionObjectWithAdjustedErrorRate s.statisticMethod bonfRate f5
  let r1 ← selectionObjectWithAdjustedPvalue s.alpha "Holm" f5
  let r2 ← selectionObjectWithSgof "SGoF" r1.1
  let r3 ← selectionObjectWithAdjustedPvalue s.alpha "BenjaminiHochberg" r2.1
  let r4 ← selectionObjectWithAdjustedPvalue s.alpha "BenjaminiYekutieli" r3.1
  .ok (r4.1, [("Sidak", selSidak), ("Bonferroni", selBonf), ("Holm", r1.2),
    ("SGoF", r2.2), ("BenjaminiHochberg", r3.2), ("BenjaminiYekutieli", r4.2)])

/-- `enrichment_analysis` (the driver, minus terminal I/O): append the two
percentage columns, run the test engine, then the corrections and selections.
Returns the enriched frame and the method-to-significant-keys map. -/
def enrichmentAnalysisRun (normSf : ℚ → ℚ → ℚ → ℚ) (powfrac : ℚ → ℚ → ℚ) (s : EAState)
    (colI colR : String) (f : DF) : Except String (DF × List (String × List String)) := do
  let ci ← f.getCol colI
  let cr ← f.getCol colR
  let f1 := f.setCol "PercentageInInterest"
    (ci.map (fun c => Cell.num (cellVal c / (s.nInterest : ℚ) * 100)))
  let f2 := f1.setCol "PercentageInReference"
    (cr.map (fun c => Cell.num (cellVal c / (s.nReference : ℚ) * 100)))
  let r ← testOnDataframe normSf s colI colR f2
  multipleTestingCorrectionBase powfrac r.2 r.1

/-- The five-row scenario table of the spec: ascending raw p-values
`[0.001, 0.01, 0.02, 0.2, 0.5]` under the hypergeometric column name. -/
def dfBonfScenario : DF :=
  ⟨["pvalue_hypergeometric"],
   [("a", [Cell.num (1/1000)]), ("b", [Cell.num (1/100)]), ("c", [Cell.num (1/50)]),
    ("d", [Cell.num (1/5)]), ("e", [Cell.num (1/2)])]⟩

/-- SGoF small-sample scenario: `m = 8` sorted raw p-values with exactly two
(`0.01` and `0.04`) strictly below `alpha = 0.05`. -/
def dfSgof8 : DF :=
  ⟨["pvalue_hypergeometric"],
   [("a", [Cell.num (1/100)]), ("b", [Cell.num (1/25)]), ("c", [Cell.num (1/10)]),
    ("d", [Cell.num (1/5)]), ("e", [Cell.num (3/10)]), ("f", [Cell.num (2/5)]),
    ("g", [Cell.num (1/2)]), ("h", [Cell.num (3/5)])]⟩

/-- Mathematical form of the Holm loop: each output is the running maximum of
the capped candidates `min(1, p * (m - rank))`, carried as the new
accumulator.  Specification helper used to state C6 against `holmGo`. -/
def holmRunningMax (m : ℕ) (pmax : ℚ) (rank : ℕ) : List ℚ → List ℚ
  | [] => []
  | p :: rest =>
    max pmax (min 1 (p * ((m : ℚ) - (rank : ℚ))))
      :: holmRunningMax m (max pmax (min 1 (p * ((m : ℚ) - (rank : ℚ))))) (rank + 1) rest

/-- The claim formula for Holm at 0-based index `i`:
`max_{j ≤ i} min(1, p_j * (m - j))` (1-based: `p_j * (m - j + 1)`), rendered
as a fold of `max` over the capped candidates (base 0, the loop's initial
`pvalue_max`; under non-negative p-values the fold is attained by a
candidate, so it is the claimed maximum). -/
def holmClaimValue (m : ℕ) (ps : List ℚ) (i : ℕ) : ℚ :=
  (((List.range (i + 1)).map (fun j => min 1 (ps.getD j 0 * ((m : ℚ) - (j : ℚ)))))).foldr max 0

/-- Rational twin of the Benjamini-Hochberg candidates for a raw sequence. -/
def bhCandidatesQ (ps : List ℚ) : List ℚ :=
  List.zipWith (fun (i : ℕ) p => p * ((ps.length : ℚ) / ((i : ℚ) + 1))) (List.range ps.length) ps

/-- Rational twin of the Benjamini-Yekutieli candidates (scaled by `c(m)`). -/
def byCandidatesQ (ps : List ℚ) : List ℚ :=
  List.zipWith (fun (i : ℕ) p => p * (harmonicSum ps.length * ((ps.length : ℚ) / ((i : ℚ) + 1))))
    (List.range ps.length) ps

/-- Rational twin of the Benjamini-Hochberg corrected column. -/
def bhColumnQ (ps : List ℚ) : List ℚ :=
  (cumminQ (bhCandidatesQ ps).reverse).reverse.map (fun x => min 1 x)

/-- Rational twin of the Benjamini-Yekutieli corrected column. -/
def byColumnQ (ps : List ℚ) : List ℚ :=
  (cumminQ (byCandidatesQ ps).reverse).reverse.map (fun x => min 1 x)

theorem sum_hypergeom_numerators (N K n : ℕ) (hK : K ≤ N) :
    ∑ j ∈ Finset.range (n + 1), K.choose j * (N - K).choose (n - j) = N.choose n := by
  have h := Nat.add_choose_eq K (N - K) n
  rw [Nat.add_sub_cancel' hK] at h
  rw [h, Finset.Nat.sum_antidiagonal_eq_sum_range_succ_mk]

theorem sum_hypergeomPmf (N K n : ℕ) (hK : K ≤ N) (hn : n ≤ N) :
    ∑ j ∈ Finset.range (n + 1), hypergeomPmf N K n j = 1 := by
  have hpos : 0 < N.choose n := Nat.choose_pos hn
  have hne : ((N.choose n : ℕ) : ℚ) ≠ 0 := by
    exact_mod_cast Nat.pos_iff_ne_zero.mp hpos
  unfold hypergeomPmf
  rw [← Finset.sum_div]
  rw [div_eq_one_iff_eq hne]
  exact_mod_cast sum_hypergeom_numerators N K n hK

theorem hypergeomSf_eq_tail_sum (N K n : ℕ) (x : ℤ) (hK : K ≤ N) (hn : n ≤ N) :
    hypergeomSf N K n x =
      ∑ j ∈ Finset.range (n + 1), if ¬ ((j : ℤ) ≤ x) then hypergeomPmf N K n j else 0 := by
  unfold hypergeomSf hypergeomCdf
  have hsplit :
      (∑ j ∈ Finset.range (n + 1), if (j : ℤ) ≤ x then hypergeomPmf N K n j else 0) +
        (∑ j ∈ Finset.range (n + 1), if ¬ ((j : ℤ) ≤ x) then hypergeomPmf N K n j else 0) =
        ∑ j ∈ Finset.range (n + 1), hypergeomPmf N K n j := by
    rw [← Finset.sum_filter, ← Finset.sum_filter]
    exact Finset.sum_filter_add_sum_filter_not _ _ _
  rw [sum_hypergeomPmf N K n hK hn] at hsplit
  linarith

/-- `sf(k - 1) = P(X ≥ k)` for the hypergeometric distribution. -/
theorem computeHypergeometricTest_eq_tail (nI nR k K : ℕ) (hK : K ≤ nR) (hn : nI ≤ nR) :
    computeHypergeometricTest nI nR k K = hypergeomTail nR K nI k := by
  unfold computeHypergeometricTest hypergeomTail
  rw [hypergeomSf_eq_tail_sum nR K nI ((k : ℤ) - 1) hK hn]
  apply Finset.sum_congr rfl
  intro j _
  congr 1
  have : (¬ (j : ℤ) ≤ (k : ℤ) - 1) ↔ (k ≤ j) := by
    constructor
    · intro h
      have hjk : (k : ℤ) ≤ (j : ℤ) := by omega
      exact_mod_cast hjk
    · intro h
      have hjk : (k : ℤ) ≤ (j : ℤ) := by exact_mod_cast h
      omega
  exact propext this


theorem mem_insertSortedRow (le : (String × List Cell) → (String × List Cell) → Bool)
    (x y : String × List Cell) (l : List (String × List Cell)) :
    y ∈ insertSortedRow le x l ↔ y = x ∨ y ∈ l := by
  induction l with
  | nil => simp [insertSortedRow]
  | cons a as ih =>
    rw [insertSortedRow]
    by_cases h : le x a
    · rw [if_pos h]
      simp only [List.mem_cons]
    · rw [if_neg h]
      simp only [List.mem_cons, ih]
      tauto

theorem mem_insertionSortRows (le : (String × List Cell) → (String × List Cell) → Bool)
    (y : String × List Cell) (l : List (String × List Cell)) :
    y ∈ insertionSortRows le l ↔ y ∈ l := by
  induction l with
  | nil => simp [insertionSortRows]
  | cons a as ih =>
    rw [insertionSortRows, mem_insertSortedRow]
    simp only [List.mem_cons, ih]

theorem cellToNat_natCast (k : ℕ) : cellToNat (Cell.num (k : ℚ)) = k := by
  simp [cellToNat]

theorem zipWith_map_same {α β γ δ : Type} (f : β → γ → δ) (g : α → β) (h : α → γ)
    (l : List α) : List.zipWith f (l.map g) (l.map h) = l.map (fun x => f (g x) (h x)) := by
  induction l with
  | nil => rfl
  | cons a as ih => simp [ih]


theorem all_map_num_gtQ (thr : ℚ) (rows : List (String × ℕ × ℕ)) :
    ((rows.map (fun r => Cell.num (r.2.1 : ℚ))).all (fun c => cellGtQ c thr))
      = rows.all (fun r => decide (thr < (r.2.1 : ℚ))) := by
  induction rows with
  | nil => rfl
  | cons a as ih =>
    rw [List.map_cons, List.all_cons, List.all_cons, ih]
    rfl

theorem setCol_fresh (hdr : List String) (rows : List (String × List Cell))
    (name : String) (vals : List Cell)
    (h : hdr.findIdx? (fun s => s == name) = none) :
    DF.setCol ⟨hdr, rows⟩ name vals =
      ⟨hdr ++ [name], rows.zipWith (fun r v => (r.1, r.2 ++ [v])) vals⟩ := by
  rw [DF.setCol]
  simp only [h]

theorem sortByCol_at (hdr : List String) (rows : List (String × List Cell))
    (name : String) (j : ℕ)
    (h : hdr.findIdx? (fun s => s == name) = some j) :
    DF.sortByCol ⟨hdr, rows⟩ name =
      .ok ⟨hdr, insertionSortRows (fun r t => cellLeSort (cellAt r.2 j) (cellAt t.2 j)) rows⟩ := by
  rw [DF.sortByCol, DF.colIdx]
  simp only [h]
  rfl

/-- C5: the test engine chooses one mode for the whole two-column input table:
if every `count_interest` strictly exceeds `normal_approx_threshold` the
normal approximation is used (for every row), otherwise the exact
hypergeometric test is used for every row; and in hypergeometric mode the raw
p-value of every row with counts `k`, `K` equals the hypergeometric upper tail
`P(X ≥ k)` (that is, `sf(k-1; N, K, n)`) for `n = n_interest`,
`N = n_reference`. -/
theorem claim_C5_table_wide_mode_and_hypergeometric_tail
    (normSf : ℚ → ℚ → ℚ → ℚ) (s : EAState) (colI colR : String)
    (rows : List (String × ℕ × ℕ))
    (h0 : colI ≠ colR)
    (h1 : colI ≠ "pvalue_hypergeometric") (h2 : colR ≠ "pvalue_hypergeometric")
    (h3 : colI ≠ "pvalue_normal_approximation") (h4 : colR ≠ "pvalue_normal_approximation")
    (hK : ∀ r ∈ rows, r.2.2 ≤ s.nReference) (hn : s.nInterest ≤ s.nReference) :
    (rows.all (fun r => decide (s.normalApproxThreshold < (r.2.1 : ℚ))) = false →
      ∃ f1, testOnDataframe normSf s colI colR
          ⟨[colI, colR], rows.map (fun r => (r.1, [Cell.num (r.2.1 : ℚ), Cell.num (r.2.2 : ℚ)]))⟩
          = .ok (f1, { s with statisticMethod := "pvalue_hypergeometric" }) ∧
        ∀ rr ∈ f1.rows, ∃ r ∈ rows,
          rr = (r.1, [Cell.num (r.2.1 : ℚ), Cell.num (r.2.2 : ℚ),
            Cell.num (hypergeomTail s.nReference r.2.2 s.nInterest r.2.1)])) ∧
    (rows.all (fun r => decide (s.normalApproxThreshold < (r.2.1 : ℚ))) = true →
      ∃ f1, testOnDataframe normSf s colI colR
          ⟨[colI, colR], rows.map (fun r => (r.1, [Cell.num (r.2.1 : ℚ), Cell.num (r.2.2 : ℚ)]))⟩
          = .ok (f1, { s with statisticMethod := "pvalue_normal_approximation" })) := by
  have hbI : (colI == colI) = true := beq_self_eq_true colI
  have hbR : (colR == colR) = true := beq_self_eq_true colR
  have hbIR : (colI == colR) = false := beq_eq_false_iff_ne.mpr h0
  have hb1 : (colI == "pvalue_hypergeometric") = false := beq_eq_false_iff_ne.mpr h1
  have hb2 : (colR == "pvalue_hypergeometric") = false := beq_eq_false_iff_ne.mpr h2
  have hb3 : (colI == "pvalue_normal_approximation") = false := beq_eq_false_iff_ne.mpr h3
  have hb4 : (colR == "pvalue_normal_approximation") = false := beq_eq_false_iff_ne.mpr h4
  set f : DF := ⟨[colI, colR], rows.map (fun r => (r.1, [Cell.num (r.2.1 : ℚ), Cell.num (r.2.2 : ℚ)]))⟩ with hf
  have hci : f.getCol colI = .ok (rows.map (fun r => Cell.num (r.2.1 : ℚ))) := by
    simp [DF.getCol, DF.colIdx, hbI, hf, Bind.bind, Except.bind, cellAt]
  have hcr : f.getCol colR = .ok (rows.map (fun r => Cell.num (r.2.2 : ℚ))) := by
    simp [DF.getCol, DF.colIdx, hbIR, hbR, hf, Bind.bind, Except.bind, cellAt]
  have hfreshH : ([colI, colR] : List String).findIdx?
      (fun t => t == "pvalue_hypergeometric") = none := by
    simp [List.findIdx?_cons, hb1, hb2]
  have hfreshN : ([colI, colR] : List String).findIdx?
      (fun t => t == "pvalue_normal_approximation") = none := by
    simp [List.findIdx?_cons, hb3, hb4]
  have hfindH : (([colI, colR] : List String) ++ ["pvalue_hypergeometric"]).findIdx?
      (fun t => t == "pvalue_hypergeometric") = some 2 := by
    simp [List.findIdx?_cons, hb1, hb2]
  have hfindN : (([colI, colR] : List String) ++ ["pvalue_normal_approximation"]).findIdx?
      (fun t => t == "pvalue_normal_approximation") = some 2 := by
    simp [List.findIdx?_cons, hb3, hb4]
  constructor
  · intro hmode
    have hv : valueHigherThreshold s.normalApproxThreshold
        (rows.map (fun r => Cell.num (r.2.1 : ℚ))) = false := by
      rw [valueHigherThreshold, all_map_num_gtQ, hmode]
    refine ⟨⟨[colI, colR] ++ ["pvalue_hypergeometric"],
      insertionSortRows (fun r t => cellLeSort (cellAt r.2 2) (cellAt t.2 2))
        (rows.map (fun r => (r.1, [Cell.num (r.2.1 : ℚ), Cell.num (r.2.2 : ℚ),
          Cell.num (computeHypergeometricTest s.nInterest s.nReference r.2.1 r.2.2)])))⟩,
      ?_, ?_⟩
    · rw [testOnDataframe, hci, hcr]
      simp only [Bind.bind, Except.bind]
      rw [hv]
      simp only [if_pos rfl]
      rw [zipWith_map_same
        (fun a b => Cell.num (computeHypergeometricTest s.nInterest s.nReference (cellToNat a) (cellToNat b)))
        (fun r : String × ℕ × ℕ => Cell.num (r.2.1 : ℚ))
        (fun r : String × ℕ × ℕ => Cell.num (r.2.2 : ℚ)) rows]
      have hvals : rows.map (fun r : String × ℕ × ℕ =>
          Cell.num (computeHypergeometricTest s.nInterest s.nReference
            (cellToNat (Cell.num (r.2.1 : ℚ))) (cellToNat (Cell.num (r.2.2 : ℚ))))) =
          rows.map (fun r : String × ℕ × ℕ =>
          Cell.num (computeHypergeometricTest s.nInterest s.nReference r.2.1 r.2.2)) := by
        apply List.map_congr_left
        intro r _
        rw [cellToNat_natCast, cellToNat_natCast]
      rw [hvals, hf]
      rw [setCol_fresh _ _ _ _ hfreshH]
      rw [zipWith_map_same
        (fun (r : String × List Cell) (v : Cell) => (r.1, r.2 ++ [v]))
        (fun r : String × ℕ × ℕ => (r.1, [Cell.num (r.2.1 : ℚ), Cell.num (r.2.2 : ℚ)]))
        (fun r : String × ℕ × ℕ =>
          Cell.num (computeHypergeometricTest s.nInterest s.nReference r.2.1 r.2.2)) rows]
      rw [sortByCol_at _ _ _ _ hfindH]
      rfl
    · intro rr hrr
      rw [mem_insertionSortRows] at hrr
      rcases List.mem_map.mp hrr with ⟨r, hr, hrr2⟩
      refine ⟨r, hr, ?_⟩
      rw [← hrr2]
      rw [computeHypergeometricTest_eq_tail s.nInterest s.nReference r.2.1 r.2.2 (hK r hr) hn]
  · intro hmode
    have hv : valueHigherThreshold s.normalApproxThreshold
        (rows.map (fun r => Cell.num (r.2.1 : ℚ))) = true := by
      rw [valueHigherThreshold, all_map_num_gtQ, hmode]
    refine ⟨⟨[colI, colR] ++ ["pvalue_normal_approximation"],
      insertionSortRows (fun r t => cellLeSort (cellAt r.2 2) (cellAt t.2 2))
        (List.zipWith (fun (r : String × List Cell) (v : Cell) => (r.1, r.2 ++ [v]))
          (rows.map (fun r => (r.1, [Cell.num (r.2.1 : ℚ), Cell.num (r.2.2 : ℚ)])))
          (List.zipWith (fun a b => computeNormalApproximation normSf (s.nInterest : ℚ)
            (s.nReference : ℚ) (cellVal a) (cellVal b))
            (rows.map (fun r => Cell.num (r.2.1 : ℚ)))
            (rows.map (fun r => Cell.num (r.2.2 : ℚ)))))⟩, ?_⟩
    rw [testOnDataframe, hci, hcr]
    simp only [Bind.bind, Except.bind]
    rw [hv]
    simp only [Bool.true_eq_false, if_neg, if_false]
    rw [hf, setCol_fresh _ _ _ _ hfreshN]
    rw [sortByCol_at _ _ _ _ hfindN]

/-- Witness for C5 at a concrete input: one row with counts `(1, 3)`, threshold
3 (so the hypergeometric mode is selected), `n_interest = 2`,
`n_reference = 10`. -/
theorem claim_C5_witness :
    (([("a", 1, 3)] : List (String × ℕ × ℕ)).all
        (fun r => decide ((3 : ℚ) < (r.2.1 : ℚ))) = false) ∧
    (∃ f1, testOnDataframe (fun _ _ _ => (0 : ℚ)) ⟨2, 10, 1/20, 3, ""⟩ "IC" "RC"
        ⟨["IC", "RC"], ([("a", 1, 3)] : List (String × ℕ × ℕ)).map
          (fun r => (r.1, [Cell.num (r.2.1 : ℚ), Cell.num (r.2.2 : ℚ)]))⟩
        = .ok (f1, ⟨2, 10, 1/20, 3, "pvalue_hypergeometric"⟩) ∧
      ∀ rr ∈ f1.rows, ∃ r ∈ ([("a", 1, 3)] : List (String × ℕ × ℕ)),
        rr = (r.1, [Cell.num (r.2.1 : ℚ), Cell.num (r.2.2 : ℚ),
          Cell.num (hypergeomTail 10 r.2.2 2 r.2.1)])) := by
  refine ⟨by decide, ?_⟩
  exact (claim_C5_table_wide_mode_and_hypergeometric_tail (fun _ _ _ => 0)
    ⟨2, 10, 1/20, 3, ""⟩ "IC" "RC" [("a", 1, 3)] (by decide) (by decide) (by decide)
    (by decide) (by decide) (by decide) (by decide)).1 (by decide)

/-- C1 counterexample: the claim says a configuration error is raised at
construction for `n_interest > n_reference` or non-positive `alpha`; but
`__init__` (embedded as the total function `enrichmentAnalysisInit`, faithful
to the source, which contains no validation and no raise) accepts
`n_interest = 5 > 3 = n_reference` together with `alpha = -1` and simply
stores them. -/
theorem claim_C1_counterexample :
    (enrichmentAnalysisInit 5 3 (-1) 0).nReference < (enrichmentAnalysisInit 5 3 (-1) 0).nInterest
    ∧ (enrichmentAnalysisInit 5 3 (-1) 0).alpha < 0 := by
  constructor
  · decide
  · norm_num [enrichmentAnalysisInit]

/-- C1 amended: validation happens only in the two size-parameter property
setters (the interest setter raises exactly when the new value exceeds the
stored reference count, the reference setter exactly when the new value is
below the stored interest count); construction stores its arguments
unvalidated, `alpha` is never validated (its setter stores any value), and an
empty input table is not rejected up front: the driver proceeds into the
correction phase and fails there with a runtime `KeyError` (the empty table
selects the normal-approximation naming, and `correction_benjamini_yekutieli`
looks up the nonexistent `pvalue_hypergeometric` column). -/
theorem claim_C1_amended :
    (∀ s : EAState, ∀ v : ℕ,
      (∃ e, setNumberOfAnalyzedObjectOfInterest s v = .error e) ↔ s.nReference < v) ∧
    (∀ s : EAState, ∀ v : ℕ,
      (∃ e, setNumberOfAnalyzedObjectOfReference s v = .error e) ↔ v < s.nInterest) ∧
    (∀ s : EAState, ∀ v : ℚ, setAlpha s v = { s with alpha := v }) ∧
    enrichmentAnalysisRun (fun _ _ _ => 0) (fun _ _ => 0) ⟨2, 10, 1/20, 3, ""⟩ "IC" "RC"
      ⟨["IC", "RC"], []⟩ = .error "KeyError: pvalue_hypergeometric" := by
  refine ⟨?_, ?_, fun s v => rfl, by rfl⟩
  · intro s v
    rw [setNumberOfAnalyzedObjectOfInterest]
    by_cases h : s.nReference < v
    · simp [h]
    · simp [h]
  · intro s v
    rw [setNumberOfAnalyzedObjectOfReference]
    by_cases h : v < s.nInterest
    · simp [h]
    · simp [h]

/-- C3 counterexample: on the spec's scenario (`m = 5`, raw p-values
`[0.001, 0.01, 0.02, 0.2, 0.5]`, `alpha = 0.05`) the Bonferroni-significant
selection of the source (raw p-value strictly below `alpha/m = 0.01`)
returns only the first object, not the first two: `0.01 < 0.01` is false. -/
theorem claim_C3_counterexample :
    (do
      let er ← errorRateAdjustementBonferroni (1/20) 5
      selectionObjectWithAdjustedErrorRate "pvalue_hypergeometric" er dfBonfScenario)
      = .ok ["a"] ∧ (["a"] : List String) ≠ ["a", "b"] := by
  exact ⟨by with_unfolding_all rfl, by decide⟩

/-- C3 amended: the Bonferroni-corrected column on the scenario is
`[0.005, 0.05, 0.1, 1, 1]` (each raw value times `m = 5`, capped at 1), and
the Bonferroni-significant list — rows with raw p-value strictly below
`alpha/m` — contains exactly the first object. -/
theorem claim_C3_amended :
    (correctionBonferroni "pvalue_hypergeometric" dfBonfScenario).map
      (fun f => f.rows.map (fun r => cellAt r.2 1))
      = .ok [Cell.num (1/200), Cell.num (1/20), Cell.num (1/10), Cell.num 1, Cell.num 1] ∧
    (do
      let er ← errorRateAdjustementBonferroni (1/20) 5
      selectionObjectWithAdjustedErrorRate "pvalue_hypergeometric" er dfBonfScenario)
      = .ok ["a"] := by
  exact ⟨by with_unfolding_all rfl, by with_unfolding_all rfl⟩

/-- C2: evidence of the code bug.  In normal-approximation mode (every count
above the threshold) the selected raw p-value column is
`pvalue_normal_approximation`; Bonferroni (like BH and Holm) reads the
selected column and succeeds, but `correction_benjamini_yekutieli` reads the
hardcoded name `pvalue_hypergeometric` and raises `KeyError`, so the whole
experimental correction pipeline fails on every normal-approximation run —
while the same pipeline in hypergeometric mode succeeds (there the hardcoded
name coincides with the selected column). -/
theorem claim_C2_hardcoded_by_column_evidence :
    ((⟨["IC", "pvalue_normal_approximation"],
        [("a", [Cell.num 5, Cell.num (1/2)])]⟩ : DF).getCol "pvalue_normal_approximation").isOk
      = true ∧
    correctionBonferroni "pvalue_normal_approximation"
      ⟨["IC", "pvalue_normal_approximation"], [("a", [Cell.num 5, Cell.num (1/2)])]⟩
      = .ok ⟨["IC", "pvalue_normal_approximation", "pValueBonferroni"],
          [("a", [Cell.num 5, Cell.num (1/2), Cell.num (1/2)])]⟩ ∧
    correctionBenjaminiYekutieli
      ⟨["IC", "pvalue_normal_approximation"], [("a", [Cell.num 5, Cell.num (1/2)])]⟩
      = .error "KeyError: pvalue_hypergeometric" ∧
    (do
      let r ← testOnDataframe (fun _ _ _ => (1/2 : ℚ)) ⟨10, 100, 1/20, 4, ""⟩ "IC" "RC"
          ⟨["IC", "RC"], [("a", [Cell.num 5, Cell.num 0]), ("b", [Cell.num 6, Cell.num 50])]⟩
      multipleTestingCorrectionExperimental (fun _ _ => (9/10 : ℚ)) (fun x => x) 0 r.2 r.1)
      = .error "KeyError: pvalue_hypergeometric" ∧
    (do
      let r ← testOnDataframe (fun _ _ _ => (1/2 : ℚ)) ⟨10, 100, 1/20, 4, ""⟩ "IC" "RC"
          ⟨["IC", "RC"], [("a", [Cell.num 2, Cell.num 10]), ("b", [Cell.num 1, Cell.num 40])]⟩
      multipleTestingCorrectionExperimental (fun _ _ => (9/10 : ℚ)) (fun x => x) 0 r.2 r.1).isOk
      = true := by
  refine ⟨by rfl, by with_unfolding_all rfl, by rfl, by with_unfolding_all rfl, ?_⟩
  set_option maxRecDepth 100000 in with_unfolding_all rfl

/-- C8: a normal-approximation row p-value is `nan` exactly when one of `n`,
`p = K/N`, `q = 1-p`, `1 - n/N` is zero — equivalently (for `N ≠ 0`) when
`n = 0`, `K = 0`, `K = N` or `n = N`; the per-row computation itself never
raises.  However the claim that such a row merely gets excluded while the run
continues fails: every normal-approximation run aborts with a `KeyError` in
`correction_benjamini_yekutieli` (hardcoded `pvalue_hypergeometric` column)
before any selection is reached — shown here on a run whose first row
(`K = 0`) has a `nan` raw p-value. -/
theorem claim_C8_nan_degeneracy_evidence :
    (∀ (normSf : ℚ → ℚ → ℚ → ℚ) (nI nR k K : ℚ), nR ≠ 0 →
      (computeNormalApproximation normSf nI nR k K = Cell.nan ↔
        (nI = 0 ∨ K = 0 ∨ K = nR ∨ nI = nR))) ∧
    computeNormalApproximation (fun _ _ _ => (1/2 : ℚ)) 10 100 5 0 = Cell.nan ∧
    (do
      let r ← testOnDataframe (fun _ _ _ => (1/2 : ℚ)) ⟨10, 100, 1/20, 4, ""⟩ "IC" "RC"
          ⟨["IC", "RC"], [("a", [Cell.num 5, Cell.num 0]), ("b", [Cell.num 6, Cell.num 50])]⟩
      multipleTestingCorrectionBase (fun _ _ => (9/10 : ℚ)) r.2 r.1)
      = .error "KeyError: pvalue_hypergeometric" := by
  refine ⟨?_, by with_unfolding_all rfl, by with_unfolding_all rfl⟩
  intro normSf nI nR k K hnR
  have hker : computeNormalApproximation normSf nI nR k K =
      if nI = 0 ∨ K / nR = 0 ∨ 1 - K / nR = 0 ∨ 1 - nI / nR = 0 then Cell.nan
      else Cell.num (normSf k (nI * (K / nR))
        (nI * (K / nR) * (1 - K / nR) * (1 - nI / nR))) := rfl
  have htrans : (nI = 0 ∨ K / nR = 0 ∨ 1 - K / nR = 0 ∨ 1 - nI / nR = 0) ↔
      (nI = 0 ∨ K = 0 ∨ K = nR ∨ nI = nR) := by
    apply or_congr Iff.rfl
    apply or_congr
    · rw [div_eq_zero_iff]
      simp [hnR]
    apply or_congr
    · rw [sub_eq_zero, eq_comm, div_eq_one_iff_eq hnR]
    · rw [sub_eq_zero, eq_comm, div_eq_one_iff_eq hnR]
  rw [hker]
  by_cases h : nI = 0 ∨ K / nR = 0 ∨ 1 - K / nR = 0 ∨ 1 - nI / nR = 0
  · rw [if_pos h]
    simp only [true_iff]
    exact htrans.mp h
  · rw [if_neg h]
    constructor
    · intro hc
      exact absurd hc (by simp)
    · intro hc
      exact absurd (htrans.mpr hc) h

/-- Witness for C8 at concrete inputs (`N = 100 ≠ 0`, `K = 0`): the
degeneracy equivalence instantiated. -/
theorem claim_C8_witness :
    computeNormalApproximation (fun _ _ _ => (1/3 : ℚ)) 10 100 5 0 = Cell.nan ↔
      ((10 : ℚ) = 0 ∨ (0 : ℚ) = 0 ∨ (0 : ℚ) = 100 ∨ (10 : ℚ) = 100) :=
  claim_C8_nan_degeneracy_evidence.1 (fun _ _ _ => (1/3 : ℚ)) 10 100 5 0 (by norm_num)

/-- C10: the Holm/BH/BY selector keeps a key exactly when (after the in-place
`replace('', nan)`) the row's own `pValue<method>` cell is a number strictly
below `alpha` AND the row carries no `nan` in any column (`.dropna(0)` drops
the whole row otherwise); concretely, a row whose Holm value `0.01 < 0.05`
but whose SGoF cell is `nan` is excluded from the Holm list. -/
theorem claim_C10_dropna_excludes_rows_with_any_missing_value
    (alpha : ℚ) (methodName : String) (f : DF) (j : ℕ)
    (hj : (f.replaceEmptyWithNan).colIdx ("pValue" ++ methodName) = .ok j) :
    (∃ sel, selectionObjectWithAdjustedPvalue alpha methodName f
        = .ok (f.replaceEmptyWithNan, sel) ∧
      ∀ k, k ∈ sel ↔ ∃ cells, (k, cells) ∈ (f.replaceEmptyWithNan).rows ∧
        cellLtQ (cellAt cells j) alpha = true ∧ rowHasNan cells = false) ∧
    selectionObjectWithAdjustedPvalue (1/20) "Holm"
      ⟨["pValueHolm", "pValueSGoF"],
        [("a", [Cell.num (1/100), Cell.nan]), ("b", [Cell.num (1/100), Cell.str "significant"])]⟩
      = .ok (⟨["pValueHolm", "pValueSGoF"],
        [("a", [Cell.num (1/100), Cell.nan]), ("b", [Cell.num (1/100), Cell.str "significant"])]⟩,
        ["b"]) := by
  constructor
  · refine ⟨((f.replaceEmptyWithNan).rows.filter
      (fun r => cellLtQ (cellAt r.2 j) alpha && !rowHasNan r.2)).map (fun r => r.1), ?_, ?_⟩
    · rw [selectionObjectWithAdjustedPvalue]
      simp only [hj, Bind.bind, Except.bind]
    · intro k
      constructor
      · intro hk
        rcases List.mem_map.mp hk with ⟨r, hr, hek⟩
        rcases List.mem_filter.mp hr with ⟨hmem, hpred⟩
        rw [Bool.and_eq_true, Bool.not_eq_true'] at hpred
        refine ⟨r.2, ?_, hpred.1, hpred.2⟩
        rw [← hek]
        exact hmem
      · rintro ⟨cells, hmem, h1, h2⟩
        refine List.mem_map.mpr ⟨(k, cells), List.mem_filter.mpr ⟨hmem, ?_⟩, rfl⟩
        rw [Bool.and_eq_true, Bool.not_eq_true']
        exact ⟨h1, h2⟩
  · with_unfolding_all rfl

/-- Witness for C10 at a concrete frame (Holm column at position 0). -/
theorem claim_C10_witness :
    ∃ sel, selectionObjectWithAdjustedPvalue (1/20) "Holm"
        (⟨["pValueHolm", "pValueSGoF"],
          [("a", [Cell.num (1/100), Cell.nan]),
           ("b", [Cell.num (1/100), Cell.str "significant"])]⟩ : DF)
        = .ok ((⟨["pValueHolm", "pValueSGoF"],
          [("a", [Cell.num (1/100), Cell.nan]),
           ("b", [Cell.num (1/100), Cell.str "significant"])]⟩ : DF).replaceEmptyWithNan, sel) ∧
      ∀ k, k ∈ sel ↔ ∃ cells, (k, cells) ∈ ((⟨["pValueHolm", "pValueSGoF"],
          [("a", [Cell.num (1/100), Cell.nan]),
           ("b", [Cell.num (1/100), Cell.str "significant"])]⟩ : DF).replaceEmptyWithNan).rows ∧
        cellLtQ (cellAt cells 0) (1/20) = true ∧ rowHasNan cells = false :=
  (claim_C10_dropna_excludes_rows_with_any_missing_value (1/20) "Holm"
    ⟨["pValueHolm", "pValueSGoF"],
      [("a", [Cell.num (1/100), Cell.nan]),
       ("b", [Cell.num (1/100), Cell.str "significant"])]⟩ 0 (by rfl)).1

/-- C4 counterexample: on the spec scenario (`m = 8`, exactly two raw p-values
below `alpha = 0.05`) the SGoF small-sample branch of the source marks only
ONE object significant, not two: the `[:-1]` slice drops the last survival
value, leaving `[sf(1), sf(2)]`, reversed to `[sf(2), sf(1)]`, and
`sf(1; 8, 0.05) ≈ 0.0572 > 0.05`, so only the lowest-ranked object gets the
`significant` verdict. -/
theorem claim_C4_counterexample :
    (do
      let f1 ← correctionSgof (fun x => x) 0 (1/20) dfSgof8
      selectionObjectWithSgof "SGoF" f1).map (fun r : DF × List String => r.2) = .ok ["a"] ∧
    (["a"] : List String) ≠ ["a", "b"] := by
  exact ⟨by with_unfolding_all rfl, by decide⟩

/-- C4 amended: in the small-sample branch the survival probabilities are
computed for ranks `1..R+1` but the last is discarded (the `[:-1]` slice), so
only ranks `1..R` are used; after reversal, row `i` (0-based, `i < R`) is
`significant` exactly when `sf(R - i; m, alpha) ≤ alpha` and every other row
carries `nan`; the verdict column never holds a number.  On the `m = 8`,
`R = 2`, `alpha = 0.05` scenario exactly the single lowest-ranked object is
significant. -/
theorem claim_C4_amended (alpha : ℚ) (m R : ℕ) (hR : R ≤ m) :
    (∀ c ∈ sgofSmallVerdicts alpha m R, c = Cell.str "significant" ∨ c = Cell.nan) ∧
    (sgofSmallVerdicts alpha m R).length = m ∧
    (∀ i, i < R → (sgofSmallVerdicts alpha m R)[i]? =
      some (if binomSf m alpha (R - i) ≤ alpha then Cell.str "significant" else Cell.nan)) ∧
    (∀ i, R ≤ i → i < m → (sgofSmallVerdicts alpha m R)[i]? = some Cell.nan) ∧
    (do
      let f1 ← correctionSgof (fun x => x) 0 (1/20) dfSgof8
      selectionObjectWithSgof "SGoF" f1).map (fun r : DF × List String => r.2) = .ok ["a"] := by
  have hsfs : ((List.range (R + 1)).map (fun r => binomSf m alpha (r + 1))).dropLast
      = (List.range R).map (fun r => binomSf m alpha (r + 1)) := by
    rw [List.range_succ, List.map_append, List.map_singleton, List.dropLast_concat]
  have hver : sgofSmallVerdicts alpha m R =
      ((List.range R).map (fun r => binomSf m alpha (r + 1))).reverse.map
        (fun v => if v ≤ alpha then Cell.str "significant" else Cell.nan)
      ++ List.replicate (m - R) Cell.nan := by
    rw [sgofSmallVerdicts, hsfs]
  have hlen1 : (((List.range R).map (fun r => binomSf m alpha (r + 1))).reverse.map
      (fun v => if v ≤ alpha then Cell.str "significant" else Cell.nan)).length = R := by
    simp
  refine ⟨?_, ?_, ?_, ?_, by with_unfolding_all rfl⟩
  · intro c hc
    rw [hver, List.mem_append] at hc
    rcases hc with hc | hc
    · rcases List.mem_map.mp hc with ⟨v, _, hv⟩
      rw [← hv]
      by_cases hva : v ≤ alpha
      · exact Or.inl (by rw [if_pos hva])
      · exact Or.inr (by rw [if_neg hva])
    · exact Or.inr (List.eq_of_mem_replicate hc)
  · rw [hver]
    rw [List.length_append, hlen1, List.length_replicate]
    omega
  · intro i hi
    rw [hver]
    rw [List.getElem?_append_left (by rw [hlen1]; exact hi)]
    rw [List.getElem?_map]
    rw [List.getElem?_reverse (by simp; exact hi)]
    simp only [List.length_map, List.length_range]
    rw [List.getElem?_map]
    rw [List.getElem?_range (by omega)]
    simp only [Option.map_some']
    have : R - 1 - i + 1 = R - i := by omega
    rw [this]
  · intro i hiR him
    rw [hver]
    rw [List.getElem?_append_right (by rw [hlen1]; exact hiR)]
    rw [hlen1]
    rw [List.getElem?_replicate]
    rw [if_pos (by omega)]

/-- Witness for C4 amended at `alpha = 0.05`, `m = 8`, `R = 2`: the column has
8 entries, the first entry is decided by `sf(2; 8, 0.05) ≤ 0.05`, and row 5
carries `nan`. -/
theorem claim_C4_witness :
    (sgofSmallVerdicts (1/20) 8 2).length = 8 ∧
    (sgofSmallVerdicts (1/20) 8 2)[0]? =
      some (if binomSf 8 (1/20) 2 ≤ 1/20 then Cell.str "significant" else Cell.nan) ∧
    (sgofSmallVerdicts (1/20) 8 2)[5]? = some Cell.nan := by
  have h := claim_C4_amended (1/20) 8 2 (by decide)
  exact ⟨h.2.1, h.2.2.1 0 (by decide), h.2.2.2.1 5 (by decide) (by decide)⟩


theorem holmGo_step (al : ℚ) (m rank : ℕ) (a p : ℚ) (cs : List Cell) :
    holmGo al m (Cell.num a) rank (Cell.num p :: cs)
      = Cell.num (max a (min 1 (p * ((m : ℚ) - (rank : ℚ)))))
        :: holmGo al m (Cell.num (max a (min 1 (p * ((m : ℚ) - (rank : ℚ))))))
            (rank + 1) cs := by
  rw [holmGo]
  by_cases h1 : 1 < p * ((m : ℚ) - (rank : ℚ))
  · have hmin : min 1 (p * ((m : ℚ) - (rank : ℚ))) = 1 := min_eq_left h1.le
    by_cases h2 : a < 1
    · simp [cellMulQ, cellGtQ, cellGt, h1, h2, hmin, lt_irrefl, max_eq_right h2.le]
    · have ha1 : max a 1 = a := max_eq_left (le_of_not_lt h2)
      by_cases h3 : 1 < a
      · simp [cellMulQ, cellGtQ, cellGt, h1, h2, h3, hmin, ha1, lt_irrefl]
      · have haeq : a = 1 := le_antisymm (le_of_not_lt h3) (le_of_not_lt h2)
        subst haeq
        simp [cellMulQ, cellGtQ, cellGt, h1, hmin, lt_irrefl]
  · have hmin : min 1 (p * ((m : ℚ) - (rank : ℚ))) = p * ((m : ℚ) - (rank : ℚ)) :=
      min_eq_right (le_of_not_lt h1)
    by_cases h2 : a < p * ((m : ℚ) - (rank : ℚ))
    · simp [cellMulQ, cellGtQ, cellGt, h1, h2, hmin, lt_irrefl, max_eq_right h2.le]
    · have ha1 : max a (p * ((m : ℚ) - (rank : ℚ))) = a := max_eq_left (le_of_not_lt h2)
      by_cases h3 : p * ((m : ℚ) - (rank : ℚ)) < a
      · simp [cellMulQ, cellGtQ, cellGt, h1, h2, h3, hmin, ha1, lt_irrefl]
      · have haeq : p * ((m : ℚ) - (rank : ℚ)) = a :=
          le_antisymm (le_of_not_lt h2) (le_of_not_lt h3)
        have h1a : ¬ (1 : ℚ) < a := haeq ▸ h1
        simp [cellMulQ, cellGtQ, cellGt, h1a, h2, h3, hmin, ha1, haeq, lt_irrefl]

theorem holmGo_eq_runningMax (al : ℚ) (m : ℕ) :
    ∀ (ps : List ℚ) (a : ℚ) (rank : ℕ),
    holmGo al m (Cell.num a) rank (ps.map Cell.num)
      = (holmRunningMax m a rank ps).map Cell.num := by
  intro ps
  induction ps with
  | nil => intro a rank; rfl
  | cons p rest ih =>
    intro a rank
    rw [List.map_cons, holmGo_step, holmRunningMax, List.map_cons, ih]

theorem foldr_max_shift (l : List ℚ) (a b : ℚ) :
    l.foldr max (max a b) = max b (l.foldr max a) := by
  induction l with
  | nil => exact max_comm a b
  | cons x xs ih =>
    rw [List.foldr_cons, List.foldr_cons, ih, ← max_assoc, max_comm x b, max_assoc]

theorem holmRunningMax_getElem (m : ℕ) :
    ∀ (ps : List ℚ) (a : ℚ) (rank i : ℕ), i < ps.length →
    (holmRunningMax m a rank ps)[i]? =
      some (((List.range (i + 1)).map
        (fun j => min 1 (ps.getD j 0 * ((m : ℚ) - ((rank + j : ℕ) : ℚ))))).foldr max a) := by
  intro ps
  induction ps with
  | nil => intro a rank i hi; simp at hi
  | cons p rest ih =>
    intro a rank i hi
    rw [holmRunningMax]
    match i with
    | 0 =>
      simp only [List.getElem?_cons_zero, List.range_succ, List.range_zero, List.nil_append,
        List.map_cons, List.map_nil, List.foldr_cons, List.foldr_nil, List.getD_cons_zero,
        Nat.add_zero]
      rw [max_comm]
    | Nat.succ i =>
      rw [List.getElem?_cons_succ, ih _ _ i (by simpa using hi)]
      rw [List.range_succ_eq_map (i + 1), List.map_cons, List.foldr_cons]
      have hmap : (List.map Nat.succ (List.range (i + 1))).map
          (fun j => min 1 ((p :: rest).getD j 0 * ((m : ℚ) - ((rank + j : ℕ) : ℚ))))
          = (List.range (i + 1)).map
            (fun j => min 1 (rest.getD j 0 * ((m : ℚ) - ((rank + 1 + j : ℕ) : ℚ)))) := by
        rw [List.map_map]
        apply List.map_congr_left
        intro j _
        have h1 : rank + Nat.succ j = rank + 1 + j := by omega
        simp only [Function.comp, List.getD_cons_succ, h1]
      rw [hmap, foldr_max_shift]
      simp only [List.getD_cons_zero, Nat.add_zero]

theorem holmRunningMax_chain (m : ℕ) :
    ∀ (ps : List ℚ) (a : ℚ) (rank : ℕ),
    List.Chain' (· ≤ ·) (a :: holmRunningMax m a rank ps) := by
  intro ps
  induction ps with
  | nil => intro a rank; simp [holmRunningMax]
  | cons p rest ih =>
    intro a rank
    rw [holmRunningMax]
    exact List.chain'_cons.mpr ⟨le_max_left _ _, ih _ _⟩

theorem foldr_max_zero_mem : ∀ (l : List ℚ), l ≠ [] → (∀ x ∈ l, 0 ≤ x) →
    l.foldr max 0 ∈ l := by
  intro l
  induction l with
  | nil => intro h _; exact absurd rfl h
  | cons x xs ih =>
    intro _ hpos
    match xs with
    | [] =>
      simp only [List.foldr_cons, List.foldr_nil]
      rw [max_eq_left (hpos x (List.mem_cons_self x []))]
      exact List.mem_cons_self x []
    | y :: ys =>
      rw [List.foldr_cons]
      rcases max_choice x ((y :: ys).foldr max 0) with h | h
      · rw [h]; exact List.mem_cons_self _ _
      · rw [h]
        exact List.mem_cons_of_mem _
          (ih (List.cons_ne_nil y ys) (fun z hz => hpos z (List.mem_cons_of_mem x hz)))

/-- C6: for every non-empty ascending-sorted raw p-value sequence of length
`m`, the Holm loop output at 0-based index `i` equals
`max_{j ≤ i} min(1, p_j * (m - j))` (1-based ranks: `p_j * (m - j + 1)`) —
the running maximum of the capped step-down candidates, computed left to
right (the fold base 0 is the loop's initial `pvalue_max`; the second
conjunct shows the fold value is attained by an actual candidate, so it is
the claimed maximum) — and consequently the Holm column, read in ascending
rank order, is non-decreasing. -/
theorem claim_C6_holm_running_max_and_monotone
    (al : ℚ) (ps : List ℚ) (h1 : ps ≠ []) (h2 : List.Sorted (· ≤ ·) ps)
    (h3 : ∀ p ∈ ps, 0 ≤ p) :
    (∀ i, i < ps.length →
      (holmGo al ps.length (Cell.num 0) 0 (ps.map Cell.num))[i]?
        = some (Cell.num (holmClaimValue ps.length ps i))) ∧
    (∀ i, i < ps.length →
      holmClaimValue ps.length ps i ∈
        (List.range (i + 1)).map
          (fun j => min 1 (ps.getD j 0 * ((ps.length : ℚ) - (j : ℚ))))) ∧
    List.Chain' (fun a b => cellVal a ≤ cellVal b)
      (holmGo al ps.length (Cell.num 0) 0 (ps.map Cell.num)) := by
  refine ⟨?_, ?_, ?_⟩
  · intro i hi
    rw [holmGo_eq_runningMax, List.getElem?_map,
      holmRunningMax_getElem ps.length ps 0 0 i hi]
    rw [holmClaimValue]
    simp only [Nat.zero_add, Option.map_some']
  · intro i hi
    rw [holmClaimValue]
    apply foldr_max_zero_mem
    · simp
    · intro x hx
      rcases List.mem_map.mp hx with ⟨j, hj, hxe⟩
      rw [← hxe]
      have hjlen : j < ps.length := by
        have := List.mem_range.mp hj
        omega
      have hp : 0 ≤ ps.getD j 0 := by
        rw [List.getD_eq_getElem ps 0 hjlen]
        exact h3 _ (List.getElem_mem hjlen)
      have hm : (0 : ℚ) ≤ (ps.length : ℚ) - (j : ℚ) := by
        have : (j : ℚ) < (ps.length : ℚ) := by exact_mod_cast hjlen
        linarith
      exact le_min (by norm_num) (mul_nonneg hp hm)
  · rw [holmGo_eq_runningMax]
    apply List.chain'_map_of_chain' Cell.num (fun a b h => by simpa [cellVal] using h)
    exact (holmRunningMax_chain ps.length ps 0 0).tail

/-- Witness for C6 on the sorted sequence `[0.1, 0.2]`. -/
theorem claim_C6_witness :
    (holmGo (1/20) (([1/10, 1/5] : List ℚ)).length (Cell.num 0) 0
        (([1/10, 1/5] : List ℚ).map Cell.num))[1]?
      = some (Cell.num (holmClaimValue (([1/10, 1/5] : List ℚ)).length [1/10, 1/5] 1)) ∧
    List.Chain' (fun a b => cellVal a ≤ cellVal b)
      (holmGo (1/20) (([1/10, 1/5] : List ℚ)).length (Cell.num 0) 0
        (([1/10, 1/5] : List ℚ).map Cell.num)) := by
  have h := claim_C6_holm_running_max_and_monotone (1/20) [1/10, 1/5]
    (by decide) (by with_unfolding_all decide) (by with_unfolding_all decide)
  exact ⟨h.1 1 (by decide), h.2.2⟩

theorem cumminCellsGo_num (a : ℚ) (l : List ℚ) :
    cumminCellsGo (Cell.num a) (l.map Cell.num) = (cumminQAux a l).map Cell.num := by
  induction l generalizing a with
  | nil => rfl
  | cons y ys ih =>
    rw [List.map_cons, cumminCellsGo, cumminQAux, List.map_cons]
    have : cellMin (Cell.num a) (Cell.num y) = Cell.num (min a y) := rfl
    rw [this, ih]

theorem cumminCells_num (l : List ℚ) :
    cumminCells (l.map Cell.num) = (cumminQ l).map Cell.num := by
  cases l with
  | nil => rfl
  | cons x xs =>
    rw [List.map_cons, cumminCells, cumminQ, List.map_cons, cumminCellsGo_num]

theorem cumminQAux_chain (l : List ℚ) :
    ∀ acc, List.Chain' (fun a b => b ≤ a) (acc :: cumminQAux acc l) := by
  induction l with
  | nil => intro acc; simp [cumminQAux]
  | cons y ys ih =>
    intro acc
    rw [cumminQAux]
    exact List.chain'_cons.mpr ⟨min_le_left acc y, ih (min acc y)⟩

theorem cumminQ_chain (l : List ℚ) :
    List.Chain' (fun a b => b ≤ a) (cumminQ l) := by
  cases l with
  | nil => simp [cumminQ]
  | cons x xs => exact cumminQAux_chain xs x

theorem cumminQAux_mono (l1 : List ℚ) :
    ∀ (l2 : List ℚ) (a1 a2 : ℚ), a1 ≤ a2 → List.Forall₂ (· ≤ ·) l1 l2 →
    List.Forall₂ (· ≤ ·) (cumminQAux a1 l1) (cumminQAux a2 l2) := by
  induction l1 with
  | nil =>
    intro l2 a1 a2 _ h
    cases h
    exact List.Forall₂.nil
  | cons y ys ih =>
    intro l2 a1 a2 ha h
    cases h with
    | cons hy hrest =>
      rw [cumminQAux, cumminQAux]
      exact List.Forall₂.cons (min_le_min ha hy) (ih _ _ _ (min_le_min ha hy) hrest)

theorem cumminQ_mono (l1 l2 : List ℚ) (h : List.Forall₂ (· ≤ ·) l1 l2) :
    List.Forall₂ (· ≤ ·) (cumminQ l1) (cumminQ l2) := by
  cases h with
  | nil => exact List.Forall₂.nil
  | cons hx hrest => exact List.Forall₂.cons hx (cumminQAux_mono _ _ _ _ hx hrest)

theorem zipWith_num (h : ℕ → ℚ → ℚ) :
    ∀ (idx : List ℕ) (ps : List ℚ),
    List.zipWith (fun i c => cellMulQ c (h i (cellVal c))) idx (ps.map Cell.num)
      = (List.zipWith (fun i p => p * h i p) idx ps).map Cell.num := by
  intro idx
  induction idx with
  | nil => intro ps; rfl
  | cons i is ih =>
    intro ps
    cases ps with
    | nil => rfl
    | cons p rest =>
      simp only [List.map_cons, List.zipWith_cons_cons, ih]
      rfl

theorem harmonicSum_succ (m : ℕ) :
    harmonicSum (m + 1) = harmonicSum m + 1 / ((m : ℚ) + 1) := by
  rw [harmonicSum, harmonicSum, List.range_succ]
  simp

theorem one_le_harmonicSum (m : ℕ) (hm : 1 ≤ m) : 1 ≤ harmonicSum m := by
  induction m with
  | zero => omega
  | succ n ih =>
    rcases Nat.eq_zero_or_pos n with h0 | hpos
    · subst h0
      rw [harmonicSum_succ]
      norm_num [harmonicSum]
    · rw [harmonicSum_succ]
      have h1 := ih hpos
      have h2 : 0 ≤ 1 / ((n : ℚ) + 1) := by positivity
      linarith

theorem bhCandidates_num (ps : List ℚ) :
    bhCandidates (ps.map Cell.num).length (ps.map Cell.num) = (bhCandidatesQ ps).map Cell.num := by
  rw [bhCandidates, bhCandidatesQ]
  simp only [List.length_map]
  exact zipWith_num (fun i _ => ((ps.length : ℚ) / ((i : ℚ) + 1))) (List.range ps.length) ps

theorem bhColumnCells_num (ps : List ℚ) :
    bhColumnCells (ps.map Cell.num) = (bhColumnQ ps).map Cell.num := by
  rw [bhColumnCells, bhColumnQ, bhCandidates_num, ← List.map_reverse, cumminCells_num,
    ← List.map_reverse, List.map_map, List.map_map]
  rfl

theorem fdrByCells_num (ps : List ℚ) :
    fdrByCells (ps.map Cell.num) = (byColumnQ ps).map Cell.num := by
  rw [fdrByCells, byColumnQ]
  have hc : List.zipWith
      (fun (i : ℕ) c => cellMulQ c (harmonicSum (ps.map Cell.num).length
        * (((ps.map Cell.num).length : ℚ) / ((i : ℚ) + 1))))
      (List.range (ps.map Cell.num).length) (ps.map Cell.num)
      = (byCandidatesQ ps).map Cell.num := by
    rw [byCandidatesQ]
    simp only [List.length_map]
    exact zipWith_num
      (fun i _ => harmonicSum ps.length * ((ps.length : ℚ) / ((i : ℚ) + 1)))
      (List.range ps.length) ps
  rw [hc, ← List.map_reverse, cumminCells_num, ← List.map_reverse, List.map_map, List.map_map]
  rfl

theorem minOneMono : ∀ a b : ℚ, a ≤ b → min 1 a ≤ min 1 b := fun _ _ h =>
  min_le_min le_rfl h

theorem stepUpColumnQ_chain (cands : List ℚ) :
    List.Chain' (· ≤ ·) ((cumminQ cands.reverse).reverse.map (fun x => min 1 x)) := by
  apply List.chain'_map_of_chain' (fun x => min 1 x) minOneMono
  exact List.chain'_reverse.mpr (cumminQ_chain cands.reverse)

theorem forall2_zipWith (f g : ℕ → ℚ → ℚ) (hfg : ∀ i p, 0 ≤ p → f i p ≤ g i p) :
    ∀ (idx : List ℕ) (ps : List ℚ), (∀ p ∈ ps, 0 ≤ p) →
    List.Forall₂ (· ≤ ·) (List.zipWith f idx ps) (List.zipWith g idx ps) := by
  intro idx
  induction idx with
  | nil => intro ps _; simp
  | cons i is ih =>
    intro ps h
    cases ps with
    | nil => simp
    | cons p rest =>
      rw [List.zipWith_cons_cons, List.zipWith_cons_cons]
      exact List.Forall₂.cons (hfg i p (h p (List.mem_cons_self p rest)))
        (ih rest (fun q hq => h q (List.mem_cons_of_mem p hq)))

theorem forall2_map_min1 (la lb : List ℚ) (h : List.Forall₂ (· ≤ ·) la lb) :
    List.Forall₂ (· ≤ ·) (la.map (fun x => min 1 x)) (lb.map (fun x => min 1 x)) := by
  rw [List.forall₂_map_left_iff, List.forall₂_map_right_iff]
  exact h.imp (fun {a b} hab => minOneMono a b hab)

theorem bh_le_by_Q (ps : List ℚ) (h2 : ∀ p ∈ ps, 0 ≤ p) :
    List.Forall₂ (· ≤ ·) (bhColumnQ ps) (byColumnQ ps) := by
  have hcands : List.Forall₂ (· ≤ ·) (bhCandidatesQ ps) (byCandidatesQ ps) := by
    rcases List.eq_nil_or_concat ps with hnil | _
    · subst hnil
      simp [bhCandidatesQ, byCandidatesQ]
    · have hm : 1 ≤ ps.length := by
        rcases ps with _ | ⟨x, xs⟩
        · simp_all
        · simp
      have hc := one_le_harmonicSum ps.length hm
      rw [bhCandidatesQ, byCandidatesQ]
      apply forall2_zipWith _ _ _ _ _ h2
      intro i p hp
      have hdiv : (0 : ℚ) ≤ (ps.length : ℚ) / ((i : ℚ) + 1) := by positivity
      have : (ps.length : ℚ) / ((i : ℚ) + 1)
          ≤ harmonicSum ps.length * ((ps.length : ℚ) / ((i : ℚ) + 1)) :=
        le_mul_of_one_le_left hdiv hc
      exact mul_le_mul_of_nonneg_left this hp
  rw [bhColumnQ, byColumnQ]
  apply forall2_map_min1
  exact List.rel_reverse (cumminQ_mono _ _ (List.rel_reverse hcands))

/-- C7: for every non-empty non-negative raw p-value column (as produced in
hypergeometric mode), the Benjamini-Hochberg and the Benjamini-Yekutieli
corrected columns — after the tail cumulative-minimum enforcement and the cap
at 1 — are both non-decreasing in ascending rank order, and pointwise the
Benjamini-Yekutieli value dominates the Benjamini-Hochberg value (its
candidates carry the extra factor `c(m) = Σ 1/j ≥ 1`). -/
theorem claim_C7_bh_by_monotone_and_by_dominates
    (ps : List ℚ) (h1 : ps ≠ []) (h2 : ∀ p ∈ ps, 0 ≤ p) :
    List.Chain' (fun a b => cellVal a ≤ cellVal b) (bhColumnCells (ps.map Cell.num)) ∧
    List.Chain' (fun a b => cellVal a ≤ cellVal b) (fdrByCells (ps.map Cell.num)) ∧
    List.Forall₂ (fun a b => cellVal a ≤ cellVal b)
      (bhColumnCells (ps.map Cell.num)) (fdrByCells (ps.map Cell.num)) := by
  have hbh := bhColumnCells_num ps
  have hby := fdrByCells_num ps
  refine ⟨?_, ?_, ?_⟩
  · rw [hbh]
    apply List.chain'_map_of_chain' Cell.num (fun a b h => by simpa [cellVal] using h)
    exact stepUpColumnQ_chain (bhCandidatesQ ps)
  · rw [hby]
    apply List.chain'_map_of_chain' Cell.num (fun a b h => by simpa [cellVal] using h)
    exact stepUpColumnQ_chain (byCandidatesQ ps)
  · rw [hbh, hby]
    rw [List.forall₂_map_left_iff, List.forall₂_map_right_iff]
    exact (bh_le_by_Q ps h2).imp (fun {a b} hab => by simpa [cellVal] using hab)

/-- Witness for C7 on the column `[0.1, 0.2]`. -/
theorem claim_C7_witness :
    List.Chain' (fun a b => cellVal a ≤ cellVal b)
      (bhColumnCells (([1/10, 1/5] : List ℚ).map Cell.num)) ∧
    List.Chain' (fun a b => cellVal a ≤ cellVal b)
      (fdrByCells (([1/10, 1/5] : List ℚ).map Cell.num)) ∧
    List.Forall₂ (fun a b => cellVal a ≤ cellVal b)
      (bhColumnCells (([1/10, 1/5] : List ℚ).map Cell.num))
      (fdrByCells (([1/10, 1/5] : List ℚ).map Cell.num)) :=
  claim_C7_bh_by_monotone_and_by_dominates [1/10, 1/5] (by decide)
    (by with_unfolding_all decide)

theorem sgofSmallVerdicts_R0 (alpha : ℚ) (m : ℕ) :
    sgofSmallVerdicts alpha m 0 = List.replicate m Cell.nan := by
  rw [sgofSmallVerdicts]
  simp [List.range_succ]

theorem sgofLargeVerdicts_R0 (alpha : ℚ) (logf : ℚ → ℚ) (g : ℚ) (m : ℕ) (hm : m ≠ 0) :
    sgofLargeVerdicts alpha logf g m 0 = List.replicate m Cell.nan := by
  have hR : sgofAdjustedR m 0 = 0 := by
    rw [sgofAdjustedR]
    exact if_neg hm
  rw [sgofLargeVerdicts, hR]
  simp

theorem sgofLargeProb_length (alpha : ℚ) (logf : ℚ → ℚ) (m R0 : ℕ) :
    (sgofLargeProb alpha logf m R0).length = sgofAdjustedR m R0 + 1 := by
  rw [sgofLargeProb]
  simp

theorem sgofLargeVerdicts_length (alpha : ℚ) (logf : ℚ → ℚ) (g : ℚ) (m R0 : ℕ)
    (h1 : sgofAdjustedR m R0 + 1 ≤ m) :
    (sgofLargeVerdicts alpha logf g m R0).length = m := by
  rw [sgofLargeVerdicts]
  have hplen : (sgofLargeProb alpha logf m R0).length = sgofAdjustedR m R0 + 1 :=
    sgofLargeProb_length alpha logf m R0
  have hrev : (sgofLargeProb alpha logf m R0).reverse.length = sgofAdjustedR m R0 + 1 := by
    rw [List.length_reverse, hplen]
  by_cases hz : sgofAdjustedR m R0 = 0
  · rw [if_pos hz]
    rw [List.length_map, List.length_replicate]
  · rw [if_neg hz]
    rw [List.length_map, List.length_append, List.length_replicate]
    by_cases hc : (sgofLargeProb alpha logf m R0).reverse.length = 1
    · rw [if_pos hc, List.length_map, hrev]
      omega
    · rw [if_neg hc]
      have hgt : 1 < (sgofLargeProb alpha logf m R0).length := by
        rw [hplen]; omega
      rw [if_pos hgt]
      by_cases hmono : sgofLargeCondition (sgofLargeProb alpha logf m R0) = true
      · rw [if_pos hmono, List.length_map, hrev]
        omega
      · rw [if_neg hmono, List.length_map, hrev]
        omega

/-- C9: the SGoF boundary handling.  (a) Large-sample branch: when every raw
p-value lies below `alpha` (`R = m`, with `m > 10`) the count is silently
decremented to `m - 1` and the verdict column is still produced with exactly
one entry per row (no failure).  (b) For every table (either branch), when no
raw p-value lies below `alpha` (`R = 0`) the verdict column marks no row
significant. -/
theorem claim_C9_sgof_r_eq_m_and_r_eq_zero
    (alpha : ℚ) (logf : ℚ → ℚ) (g : ℚ) (ps qs : List ℚ) :
    (10 < ps.length → (ps.filter (fun p => p < alpha)).length = ps.length →
      sgofAdjustedR ps.length (ps.filter (fun p => p < alpha)).length = ps.length - 1 ∧
      (correctionSgofColumn alpha logf g ps).length = ps.length) ∧
    ((qs.filter (fun p => p < alpha)).length = 0 →
      ∀ c ∈ correctionSgofColumn alpha logf g qs, c ≠ Cell.str "significant") := by
  constructor
  · intro hm hR
    have hadj : sgofAdjustedR ps.length (ps.filter (fun p => p < alpha)).length
        = ps.length - 1 := by
      rw [hR, sgofAdjustedR, if_pos rfl]
    refine ⟨hadj, ?_⟩
    rw [correctionSgofColumn]
    rw [if_neg (by omega)]
    apply sgofLargeVerdicts_length
    rw [hadj]
    omega
  · intro hR c hc
    rw [correctionSgofColumn] at hc
    by_cases hsmall : qs.length ≤ 10
    · rw [if_pos hsmall, hR, sgofSmallVerdicts_R0] at hc
      rw [List.eq_of_mem_replicate hc]
      intro hcontra
      exact absurd hcontra (by simp)
    · rw [if_neg hsmall, hR, sgofLargeVerdicts_R0 alpha logf g qs.length (by omega)] at hc
      rw [List.eq_of_mem_replicate hc]
      intro hcontra
      exact absurd hcontra (by simp)

/-- Witness for C9: eleven p-values all below `alpha` trigger the decrement
and a full-length verdict column; a table with no p-value below `alpha`
yields no `significant` verdict. -/
theorem claim_C9_witness :
    (sgofAdjustedR (List.replicate 11 (0 : ℚ)).length
        ((List.replicate 11 (0 : ℚ)).filter (fun p => p < (1/2 : ℚ))).length
      = (List.replicate 11 (0 : ℚ)).length - 1 ∧
      (correctionSgofColumn (1/2) (fun x => x) 0 (List.replicate 11 (0 : ℚ))).length
        = (List.replicate 11 (0 : ℚ)).length) ∧
    Cell.str "significant" ∉ correctionSgofColumn (1/2) (fun x => x) 0 ([1] : List ℚ) := by
  have h := claim_C9_sgof_r_eq_m_and_r_eq_zero (1/2) (fun x => x) 0
    (List.replicate 11 (0 : ℚ)) [1]
  refine ⟨h.1 (by decide) (by with_unfolding_all decide), ?_⟩
  intro hmem
  exact h.2 (by with_unfolding_all decide) _ hmem rfl
